import Mathlib

/-!
Verification of the tayframe indicator engine (src/tayframe/indicators.py),
shallowly embedded over rational-number prices.  Dataframe rows become the
`Bar` structure, Python list slices become `drop`/`take`, list comprehensions
become `List.map` over index ranges, and code that can raise (IndexError,
ZeroDivisionError) is embedded in the `Except PyErr` monad.
-/

namespace Tayframe


/-- Rounding a rational to two decimal places, modelling Python's `round(x, 2)`. -/
def round2 (q : ℚ) : ℚ := ((round (q * 100) : ℤ) : ℚ) / 100

/-- One OHLCV dataframe row: a record with keys `t`, `o`, `h`, `l`, `c`, `v`. -/
structure Bar where
  t : ℚ
  o : ℚ
  h : ℚ
  l : ℚ
  c : ℚ
  v : ℚ
  deriving DecidableEq, Inhabited, Repr

/-- Runtime errors the indicator code can raise. -/
inductive PyErr where
  | indexError : PyErr
  | zeroDivisionError : PyErr
  deriving DecidableEq, Repr

/-- Evaluate a fallible body over a list left to right, stopping at the first
error: the embedding of a Python list comprehension whose body may raise. -/
def mapE {α β : Type} (f : α → Except PyErr β) : List α → Except PyErr (List β)
  | [] => .ok []
  | x :: xs =>
    match f x with
    | .error e => .error e
    | .ok y =>
      match mapE f xs with
      | .error e => .error e
      | .ok ys => .ok (y :: ys)

/-- Mean of the selected field over one window, rounded to 2 decimals:
the local `_sma` helper of `moving_avg`. -/
def sma_window (key : Bar → ℚ) (window : List Bar) : ℚ :=
  round2 (((window.map key).foldl (fun a b => a + b) 0) / ((window.map key).length : ℚ))

/-- Simple moving average indicator (`indicators.moving_avg`). -/
def moving_avg (df : List Bar) (key : Bar → ℚ) (lag : ℕ) : List ℚ :=
  (List.range (df.length - lag)).map (fun i => sma_window key ((df.drop i).take (lag + 1)))


/-- One recursive EMA step (the local `calc_ema` of `ema`). -/
def calc_ema (key : Bar → ℚ) (index : ℕ) (df : List Bar) (emas : List ℚ) (mult : ℚ) : ℚ :=
  round2 ((key (df.getD index default) - emas.getLastD 0) * mult + emas.getLastD 0)

/-- Exponential moving average (`indicators.ema`).  Indexing `moving_avg(...)[0]`
raises an IndexError when the seed list is empty, hence the `Except`. -/
def ema (df : List Bar) (key : Bar → ℚ) (lag : ℕ) : Except PyErr (List ℚ) :=
  match (moving_avg df key lag).head? with
  | none => .error .indexError
  | some avg =>
    .ok ((List.range' (lag + 1) (df.length - (lag + 1))).foldl
      (fun emas i => emas ++ [calc_ema key i df emas (2 / ((lag : ℚ) + 1))]) [avg])

/-- Successive values of a recursive smoothing step applied along a list,
starting from a previous value (the tail of a scan). -/
def chain (f : ℚ → ℚ → ℚ) (prev : ℚ) : List ℚ → List ℚ
  | [] => []
  | x :: xs => f prev x :: chain f (f prev x) xs

/-- Python slice `l[-k:]`; note that for `k = 0` the slice `l[-0:]` is `l[0:]`,
the whole list. -/
def negSlice {α : Type} (l : List α) (k : ℕ) : List α :=
  if k = 0 then l else l.drop (l.length - k)

/-- The local `calc_macd_line` of `macd`: subtract the slow EMA from the fast
EMA at every index of the slow EMA, indexing the fast EMA fallibly. -/
def calc_macd_line (slowl fastl : List ℚ) : Except PyErr (List ℚ) :=
  mapE (fun i =>
    match fastl[i]? with
    | none => .error .indexError
    | some fv => .ok (round2 (fv - slowl.getD i 0)))
    (List.range slowl.length)

/-- The MACD line built inside `macd`: slow EMA, fast EMA right-trimmed to the
slow EMA's length, then their rounded difference. -/
def macd_line_of (df : List Bar) (slow fast : ℕ) : Except PyErr (List ℚ) := do
  let slowema ← ema df Bar.c slow
  let fastema ← ema df Bar.c fast
  calc_macd_line slowema (negSlice fastema slowema.length)

/-- The signal line of `macd`: seeded with `macd_line[0]` and recursively
smoothed (via the local `calc_signal`) from index `signal+1` onward. -/
def calc_signal_line (macdl : List ℚ) (signal : ℕ) : Except PyErr (List ℚ) :=
  match macdl.head? with
  | none => .error .indexError
  | some seed =>
    .ok ((List.range' (signal + 1) (macdl.length - (signal + 1))).foldl
      (fun sig i => sig ++
        [round2 ((macdl.getD i 0 - sig.getLastD 0) * (2 / ((signal : ℚ) + 1)) +
          sig.getLastD 0)]) [seed])

/-- MACD histogram (`indicators.macd`): MACD line right-trimmed to the signal
line's length, minus the signal line, rounded. -/
def macd (df : List Bar) (slow fast signal : ℕ) : Except PyErr (List ℚ) := do
  let macdl ← macd_line_of df slow fast
  let sig ← calc_signal_line macdl signal
  let macd_final := negSlice macdl sig.length
  .ok ((List.range sig.length).map (fun i => round2 (macd_final.getD i 0 - sig.getD i 0)))

/-- The local `_true_range` of `atr` over a two-bar window.  The divisor is the
source's arithmetic encoding `1.0*float(not normalize) + float(normalize)*c`;
dividing by a zero divisor raises. -/
def true_range (normalize : Bool) (window : List Bar) : Except PyErr ℚ :=
  let last := window.getD (window.length - 1) default
  let prev := window.getD (window.length - 2) default
  let divisor : ℚ :=
    1 * (if normalize then 0 else 1) + (if normalize then 1 else 0) * last.c
  let tr1 := last.h - last.l
  let tr2 := last.h - prev.c
  let tr3 := last.l - prev.c
  if divisor = 0 then .error .zeroDivisionError
  else .ok (max (max tr1 tr2) tr3 / divisor)

/-- The true-range series of `atr`: one value per consecutive-bar pair. -/
def true_ranges (df : List Bar) (normalize : Bool) : Except PyErr (List ℚ) :=
  mapE (fun i => true_range normalize ((df.drop i).take 2)) (List.range (df.length - 1))

/-- The local `_sma` of `atr`, over a window of rationals. -/
def sma_q (window : List ℚ) : ℚ :=
  round2 ((window.foldl (fun a b => a + b) 0) / (window.length : ℚ))

/-- Average true range (`indicators.atr`): true ranges smoothed with a simple
moving average of window `lag+1`. -/
def atr (df : List Bar) (lag : ℕ) (normalize : Bool) : Except PyErr (List ℚ) := do
  let tr ← true_ranges df normalize
  .ok ((List.range (tr.length - lag)).map (fun i => sma_q ((tr.drop i).take (lag + 1))))

/-- Overnight gaps (`indicators.gaps`): open of bar `i` minus close of bar
`i-1`, rounded, for `i` in `1..n-1`. -/
def gaps (df : List Bar) : List ℚ :=
  (List.range' 1 (df.length - 1)).map
    (fun i => round2 ((df.getD i default).o - (df.getD (i - 1) default).c))

/-- The local `_pc` of `percent_change` over one window; a zero window-start
close raises a ZeroDivisionError. -/
def pc_window (window : List Bar) : Except PyErr ℚ :=
  if (window.getD 0 default).c = 0 then .error .zeroDivisionError
  else .ok (round2 (((window.getD (window.length - 1) default).c -
    (window.getD 0 default).c) / (window.getD 0 default).c * 100))

/-- Percent change over a lookback (`indicators.percent_change`). -/
def percent_change (df : List Bar) (lag : ℕ) : Except PyErr (List ℚ) :=
  mapE (fun i => pc_window ((df.drop i).take (lag + 1))) (List.range (df.length - lag))

/-- Python's `max(window, key=lambda d: d['c'])['c']` over a nonempty window:
the maximum close.  (On an empty window the source would raise; `new_high`
never applies it to one.) -/
def maxClose : List Bar → ℚ
  | [] => 0
  | b :: bs => bs.foldl (fun a d => max a d.c) b.c

/-- The local `_is_high` of `new_high`: whether the window's last close equals
the window's maximum close. -/
def is_high (window : List Bar) : Bool :=
  decide ((window.getD (window.length - 1) default).c = maxClose window)

/-- New-high indicator (`indicators.new_high`) over expanding prefixes. -/
def new_high (df : List Bar) : List Bool :=
  (List.range df.length).map (fun i => is_high (df.take (i + 1)))

/-- The local `_freq` of `frequency`: per key, count the `true` values in the
window's column, then total the per-key counts. -/
def freq_window {α : Type} (keys : List (α → Bool)) (window : List α) : ℕ :=
  (keys.map (fun k => (window.map k).count true)).foldl (fun a b => a + b) 0

/-- Frequency-of-occurrence indicator (`indicators.frequency`).  The window is
the fixed 31-bar slice `df[i : i+31]`; the `lag` parameter is accepted but
never used. -/
def frequency {α : Type} (df : List α) (keys : List (α → Bool)) (lag : ℕ) : List ℕ :=
  let _ := lag
  (List.range (df.length - 30)).map (fun i => freq_window keys ((df.drop i).take 31))

/-- The per-bar gains comprehension inside `rsi.avg_gain`: the rise when the
close does not fall, else 0. -/
def rsi_gains (df : List Bar) : List ℚ :=
  (List.range' 1 (df.length - 1)).map
    (fun i => if (df.getD i default).c ≥ (df.getD (i - 1) default).c
      then (df.getD i default).c - (df.getD (i - 1) default).c else 0)

/-- The per-bar losses comprehension inside `rsi.avg_loss`: the absolute drop
when the close falls, else 0. -/
def rsi_losses (df : List Bar) : List ℚ :=
  (List.range' 1 (df.length - 1)).map
    (fun i => if (df.getD i default).c < (df.getD (i - 1) default).c
      then |(df.getD i default).c - (df.getD (i - 1) default).c| else 0)

/-- Wilder-smoothed average gains (the local `avg_gain`): seed is
`sum(gains[:lag]) / lag` (dividing by zero when `lag = 0`), then
`(prev*13 + gain)/14` for each remaining gain. -/
def avg_gain (df : List Bar) (lag : ℕ) : Except PyErr (List ℚ) :=
  if lag = 0 then .error .zeroDivisionError
  else .ok (((rsi_gains df).drop lag).foldl
    (fun acc g => acc ++ [(acc.getLastD 0 * 13 + g) / 14])
    [((rsi_gains df).take lag).foldl (fun a b => a + b) 0 / (lag : ℚ)])

/-- Wilder-smoothed average losses (the local `avg_loss`), same shape as
`avg_gain`. -/
def avg_loss (df : List Bar) (lag : ℕ) : Except PyErr (List ℚ) :=
  if lag = 0 then .error .zeroDivisionError
  else .ok (((rsi_losses df).drop lag).foldl
    (fun acc g => acc ++ [(acc.getLastD 0 * 13 + g) / 14])
    [((rsi_losses df).take lag).foldl (fun a b => a + b) 0 / (lag : ℚ)])

/-- Relative strength index (`indicators.rsi`): raises ZeroDivisionError when a
smoothed average loss is zero, else rounds `100 - 100/(1 + gain/loss)` and
right-trims against the input. -/
def rsi (df : List Bar) (lag : ℕ) : Except PyErr (List ℚ) := do
  let gains ← avg_gain df lag
  let losses ← avg_loss df lag
  let raw ← mapE (fun i =>
    if losses.getD i 0 = 0 then .error .zeroDivisionError
    else .ok (round2 (100 - 100 / (1 + gains.getD i 0 / losses.getD i 0))))
    (List.range gains.length)
  let dfT := negSlice df raw.length
  .ok ((List.range dfT.length).map (fun i => raw.getD i 0))


/-- Folding addition over a list starting from `a` adds the list's sum to `a`. -/
lemma foldl_add_eq (l : List ℚ) (a : ℚ) : l.foldl (fun x y => x + y) a = a + l.sum := by
  induction l generalizing a with
  | nil => simp
  | cons x xs ih => simp [ih (a + x), add_assoc]

/-- A slice `df[i : i+k]` that fits inside the list has length exactly `k`. -/
lemma window_length {α : Type} (df : List α) (i k : ℕ) (h : i + k ≤ df.length) :
    ((df.drop i).take k).length = k := by
  simp only [List.length_take, List.length_drop]
  omega

/-- Element `j` of a slice `df[i : i+k]` is element `i+j` of the list. -/
lemma window_getElem? {α : Type} (df : List α) (i k j : ℕ) (hj : j < k) :
    ((df.drop i).take k)[j]? = df[i + j]? := by
  rw [List.getElem?_take, if_pos hj, List.getElem?_drop]

/-- Indexing into a map over `List.range`. -/
lemma getD_range_map {β : Type} [Inhabited β] (f : ℕ → β) (m i : ℕ) (h : i < m) :
    (((List.range m).map f).getD i default) = f i := by
  rw [List.getD_eq_getElem?_getD, List.getElem?_map, List.getElem?_range h]
  rfl


/-- The moving average always has length `len(df) - lag` (clamped at 0). -/
lemma moving_avg_length (df : List Bar) (key : Bar → ℚ) (lag : ℕ) :
    (moving_avg df key lag).length = df.length - lag := by
  simp [moving_avg]

/-- Element `k` of the moving average is the rounded mean over window `k`. -/
lemma moving_avg_getD (df : List Bar) (key : Bar → ℚ) (lag k : ℕ)
    (h : k < df.length - lag) :
    (moving_avg df key lag).getD k 0 = sma_window key ((df.drop k).take (lag + 1)) := by
  have := getD_range_map (fun i => sma_window key ((df.drop i).take (lag + 1)))
    (df.length - lag) k h
  simpa [moving_avg] using this

/-- On a window of length `lag+1`, `sma_window` is the rounded arithmetic mean. -/
lemma sma_window_eq_mean (key : Bar → ℚ) (w : List Bar) (lag : ℕ)
    (hw : w.length = lag + 1) :
    sma_window key w = round2 ((w.map key).sum / ((lag : ℚ) + 1)) := by
  unfold sma_window
  rw [foldl_add_eq, zero_add, List.length_map, hw]
  push_cast
  ring_nf


/-- The chain of a smoothing step has the same length as its input list. -/
lemma chain_length (f : ℚ → ℚ → ℚ) (prev : ℚ) (xs : List ℚ) :
    (chain f prev xs).length = xs.length := by
  induction xs generalizing prev with
  | nil => rfl
  | cons x xs ih => simp [chain, ih]

/-- A fold that appends one smoothed value per element, feeding each step the
accumulator's last entry, is the accumulator followed by a `chain`. -/
lemma foldl_append_chain {ι : Type} (g : ℚ → ℚ → ℚ) (v : ι → ℚ) (xs : List ι)
    (acc : List ℚ) :
    xs.foldl (fun a x => a ++ [g (a.getLastD 0) (v x)]) acc =
      acc ++ chain g (acc.getLastD 0) (xs.map v) := by
  induction xs generalizing acc with
  | nil => simp [chain]
  | cons x xs ih =>
    simp only [List.foldl_cons, List.map_cons, chain]
    rw [ih (acc ++ [g (acc.getLastD 0) (v x)])]
    rw [List.getLastD_concat]
    simp

/-- Each entry of `prev :: chain f prev xs` past the seed is obtained by applying
the step to the preceding entry and the matching input element. -/
lemma cons_chain_getD_succ (f : ℚ → ℚ → ℚ) (prev : ℚ) (xs : List ℚ) (j : ℕ)
    (h : j < xs.length) :
    (prev :: chain f prev xs).getD (j + 1) 0 =
      f ((prev :: chain f prev xs).getD j 0) (xs.getD j 0) := by
  induction xs generalizing prev j with
  | nil => simp at h
  | cons x xs ih =>
    cases j with
    | zero => simp [chain]
    | succ k =>
      have hk : k < xs.length := by simpa using h
      have := ih (f prev x) k hk
      simpa [chain] using this


/-- Indexing into a map over `List.range' s m`. -/
lemma getD_range'_map (v : ℕ → ℚ) (s m j : ℕ) (h : j < m) :
    ((List.range' s m).map v).getD j 0 = v (s + j) := by
  have hlen : j < (List.range' s m).length := by
    rw [List.length_range']
    exact h
  rw [List.getD_eq_getElem?_getD, List.getElem?_map, List.getElem?_eq_getElem hlen]
  simp [List.getElem_range']

/-- With sufficient data, the first moving average entry is the SMA of the
first `lag+1` bars. -/
lemma moving_avg_head (df : List Bar) (key : Bar → ℚ) (lag : ℕ) (h : lag < df.length) :
    (moving_avg df key lag).head? = some (sma_window key (df.take (lag + 1))) := by
  have h0 : 0 < df.length - lag := by omega
  have h1 : (moving_avg df key lag).getD 0 0 = sma_window key ((df.drop 0).take (lag + 1)) :=
    moving_avg_getD df key lag 0 h0
  rw [List.drop_zero] at h1
  cases hx : (moving_avg df key lag) with
  | nil =>
    have := moving_avg_length df key lag
    rw [hx] at this
    simp at this
    omega
  | cons a l =>
    rw [hx] at h1
    simp at h1
    simp [h1]

/-- With insufficient data (`len(df) <= lag`) the seed indexing fails:
`ema` raises an IndexError. -/
lemma ema_insufficient (df : List Bar) (key : Bar → ℚ) (lag : ℕ)
    (h : df.length ≤ lag) :
    ema df key lag = .error .indexError := by
  have hlen : (moving_avg df key lag).length = 0 := by
    rw [moving_avg_length]
    omega
  have hnil : moving_avg df key lag = [] := List.length_eq_zero.mp hlen
  simp [ema, hnil]

/-- With sufficient data, `ema` succeeds and its value is the seed SMA followed
by the chain of rounded smoothing steps over the remaining field values. -/
lemma ema_ok (df : List Bar) (key : Bar → ℚ) (lag : ℕ) (h : lag < df.length) :
    ema df key lag =
      .ok (sma_window key (df.take (lag + 1)) ::
        chain (fun p x => round2 ((x - p) * (2 / ((lag : ℚ) + 1)) + p))
          (sma_window key (df.take (lag + 1)))
          ((List.range' (lag + 1) (df.length - (lag + 1))).map
            (fun i => key (df.getD i default)))) := by
  have hhead : (moving_avg df key lag).head? = some (sma_window key (df.take (lag + 1))) :=
    moving_avg_head df key lag h
  unfold ema
  rw [hhead]
  simp only
  have hfold := foldl_append_chain (fun p x => round2 ((x - p) * (2 / ((lag : ℚ) + 1)) + p))
    (fun i => key (df.getD i default)) (List.range' (lag + 1) (df.length - (lag + 1)))
    [sma_window key (df.take (lag + 1))]
  simp only [calc_ema]
  simp only at hfold
  rw [hfold]
  simp

/-- The successful EMA list has length `len(df) - lag`. -/
lemma ema_ok_length (df : List Bar) (key : Bar → ℚ) (lag : ℕ) (h : lag < df.length)
    (l : List ℚ) (hl : ema df key lag = .ok l) :
    l.length = df.length - lag := by
  rw [ema_ok df key lag h] at hl
  cases hl
  simp [chain_length, List.length_map, List.length_range']
  omega


/-- Binding a successful `Except` computation applies the continuation. -/
lemma except_bind_ok {α β : Type} (a : α) (f : α → Except PyErr β) :
    (Except.ok a >>= f) = f a := rfl

/-- Binding a failed `Except` computation propagates the error. -/
lemma except_bind_error {α β : Type} (e : PyErr) (f : α → Except PyErr β) :
    ((Except.error e : Except PyErr α) >>= f) = Except.error e := rfl

/-- When the body succeeds on every element, `mapE` is an ordinary map. -/
lemma mapE_ok_of_forall {α β : Type} (f : α → Except PyErr β) (g : α → β) (l : List α)
    (hf : ∀ x ∈ l, f x = .ok (g x)) : mapE f l = .ok (l.map g) := by
  induction l with
  | nil => rfl
  | cons x xs ih =>
    have hx := hf x (List.mem_cons_self x xs)
    have hxs := ih (fun y hy => hf y (List.mem_cons_of_mem x hy))
    simp [mapE, hx, hxs]

/-- When some element's body raises and every possible error is `c`, the
comprehension raises `c`. -/
lemma mapE_error {α β : Type} (f : α → Except PyErr β) (c : PyErr) (l : List α)
    (hall : ∀ x ∈ l, ∀ e, f x = .error e → e = c)
    (hex : ∃ x ∈ l, ∃ e, f x = .error e) : mapE f l = .error c := by
  induction l with
  | nil => simp at hex
  | cons x xs ih =>
    cases hfx : f x with
    | error e =>
      have := hall x (List.mem_cons_self x xs) e hfx
      subst this
      simp [mapE, hfx]
    | ok y =>
      have hex' : ∃ w ∈ xs, ∃ e, f w = .error e := by
        obtain ⟨w, hw, e, hwe⟩ := hex
        rcases List.mem_cons.mp hw with h | h
        · subst h
          rw [hfx] at hwe
          cases hwe
        · exact ⟨w, h, e, hwe⟩
      have hxs := ih (fun y hy => hall y (List.mem_cons_of_mem x hy)) hex'
      simp [mapE, hfx, hxs]


/-- A nonempty list's optional head is its element 0. -/
lemma head?_eq_some_getD {α : Type} [Inhabited α] (l : List α) (h : l ≠ []) :
    l.head? = some (l.getD 0 default) := by
  cases l with
  | nil => exact absurd rfl h
  | cons a t => rfl

/-- A nonempty negative slice that fits keeps exactly `k` elements. -/
lemma negSlice_length_of_le {α : Type} (l : List α) (k : ℕ) (hk : k ≠ 0)
    (hle : k ≤ l.length) : (negSlice l k).length = k := by
  simp only [negSlice, if_neg hk, List.length_drop]
  omega

/-- A negative slice at least as long as the list is the list itself. -/
lemma negSlice_of_ge {α : Type} (l : List α) (k : ℕ) (hge : l.length ≤ k) :
    negSlice l k = l := by
  unfold negSlice
  by_cases hk : k = 0
  · simp [hk]
  · rw [if_neg hk, Nat.sub_eq_zero_of_le hge, List.drop_zero]

/-- When the fast list covers every slow index, the MACD line is the rounded
elementwise difference. -/
lemma calc_macd_line_ok (slowl fastl : List ℚ) (hlen : slowl.length ≤ fastl.length) :
    calc_macd_line slowl fastl =
      .ok ((List.range slowl.length).map
        (fun i => round2 (fastl.getD i 0 - slowl.getD i 0))) := by
  apply mapE_ok_of_forall
  intro i hi
  have hilt : i < fastl.length := lt_of_lt_of_le (List.mem_range.mp hi) hlen
  cases hx : fastl[i]? with
  | none =>
    rw [List.getElem?_eq_none_iff] at hx
    omega
  | some fv =>
    have : fastl.getD i 0 = fv := by
      rw [List.getD_eq_getElem?_getD, hx]
      rfl
    simp [hx, this]

/-- When the fast list is strictly shorter than the slow list, building the
MACD line raises an IndexError. -/
lemma calc_macd_line_error (slowl fastl : List ℚ) (hlt : fastl.length < slowl.length) :
    calc_macd_line slowl fastl = .error .indexError := by
  apply mapE_error
  · intro i _ e he
    cases hx : fastl[i]? with
    | none => simp [hx] at he; exact he.symm
    | some fv => simp [hx] at he
  · refine ⟨fastl.length, List.mem_range.mpr hlt, .indexError, ?_⟩
    have hx : fastl[fastl.length]? = none := by
      rw [List.getElem?_eq_none_iff]
    simp [hx]

/-- With a nonempty MACD line, the signal line is the seed followed by the
chain of rounded smoothing steps. -/
lemma calc_signal_line_ok (ml : List ℚ) (signal : ℕ) (h : ml ≠ []) :
    calc_signal_line ml signal =
      .ok (ml.getD 0 0 ::
        chain (fun p x => round2 ((x - p) * (2 / ((signal : ℚ) + 1)) + p)) (ml.getD 0 0)
          ((List.range' (signal + 1) (ml.length - (signal + 1))).map
            (fun i => ml.getD i 0))) := by
  unfold calc_signal_line
  rw [head?_eq_some_getD ml h]
  simp only [show (default : ℚ) = 0 from rfl]
  have hfold := foldl_append_chain (fun p x => round2 ((x - p) * (2 / ((signal : ℚ) + 1)) + p))
    (fun i => ml.getD i 0) (List.range' (signal + 1) (ml.length - (signal + 1)))
    [ml.getD 0 0]
  simp only at hfold
  rw [hfold]
  simp


/-- Indexing a window slice at a position inside the take bound. -/
lemma window_getD {α : Type} [Inhabited α] (df : List α) (i k j : ℕ) (hj : j < k) :
    ((df.drop i).take k).getD j default = df.getD (i + j) default := by
  rw [List.getD_eq_getElem?_getD, window_getElem? df i k j hj,
    ← List.getD_eq_getElem?_getD]

/-- On a window of length `lag+1`, `sma_q` is the rounded arithmetic mean. -/
lemma sma_q_eq_mean (w : List ℚ) (lag : ℕ) (hw : w.length = lag + 1) :
    sma_q w = round2 (w.sum / ((lag : ℚ) + 1)) := by
  unfold sma_q
  rw [foldl_add_eq, zero_add, hw]
  push_cast
  ring_nf

/-- An in-bounds `getD` is a plain element access. -/
lemma getD_eq_getElem' {α : Type} [Inhabited α] (l : List α) (n : ℕ) (h : n < l.length) :
    l.getD n default = l[n] := by
  rw [List.getD_eq_getElem?_getD, List.getElem?_eq_getElem h]
  rfl

/-- A two-bar slice that fits is exactly the pair of adjacent elements. -/
lemma window_two (df : List Bar) (i : ℕ) (hi : i + 1 < df.length) :
    (df.drop i).take 2 = [df.getD i default, df.getD (i + 1) default] := by
  have h1 : i < df.length := by omega
  rw [getD_eq_getElem' df i h1, getD_eq_getElem' df (i + 1) hi,
    List.drop_eq_getElem_cons h1, List.drop_eq_getElem_cons hi]
  rfl

/-- The well-defined value of one true range: the max of the three spreads over
the pair `(i, i+1)`, divided by the close when normalizing. -/
lemma true_range_ok (df : List Bar) (normalize : Bool) (i : ℕ) (hi : i + 1 < df.length)
    (hnz : normalize = true → (df.getD (i + 1) default).c ≠ 0) :
    true_range normalize ((df.drop i).take 2) =
      .ok (max (max ((df.getD (i + 1) default).h - (df.getD (i + 1) default).l)
          ((df.getD (i + 1) default).h - (df.getD i default).c))
        ((df.getD (i + 1) default).l - (df.getD i default).c) /
        (if normalize then (df.getD (i + 1) default).c else 1)) := by
  have htw := window_two df i hi
  cases normalize with
  | false => simp [true_range, htw]
  | true =>
    have hc : (df.getD (i + 1) default).c ≠ 0 := hnz rfl
    simp [true_range, htw, hc]
    rw [List.getD_eq_getElem?_getD] at hc
    exact hc

/-- When the normalizing divisors are nonzero, the whole true-range series is
well defined, one rounded-free max-of-spreads value per adjacent pair. -/
lemma true_ranges_ok (df : List Bar) (normalize : Bool)
    (hnz : normalize = true → ∀ i, 1 ≤ i → i < df.length → (df.getD i default).c ≠ 0) :
    true_ranges df normalize =
      .ok ((List.range (df.length - 1)).map
        (fun i => max (max ((df.getD (i + 1) default).h - (df.getD (i + 1) default).l)
            ((df.getD (i + 1) default).h - (df.getD i default).c))
          ((df.getD (i + 1) default).l - (df.getD i default).c) /
          (if normalize then (df.getD (i + 1) default).c else 1))) := by
  apply mapE_ok_of_forall
  intro i hi
  have hilt : i + 1 < df.length := by
    have := List.mem_range.mp hi
    omega
  exact true_range_ok df normalize i hilt
    (fun hb => hnz hb (i + 1) (by omega) hilt)


/-- Evaluating `_pc` on the window starting at `i`: it divides by the
window-start close and raises exactly when that close is zero. -/
lemma pc_window_eval (df : List Bar) (i L : ℕ) (hi : i + L < df.length) :
    pc_window ((df.drop i).take (L + 1)) =
      if (df.getD i default).c = 0 then .error .zeroDivisionError
      else .ok (round2 (((df.getD (i + L) default).c - (df.getD i default).c) /
        (df.getD i default).c * 100)) := by
  have hwlen : ((df.drop i).take (L + 1)).length = L + 1 :=
    window_length df i (L + 1) (by omega)
  have h0 : ((df.drop i).take (L + 1)).getD 0 default = df.getD i default := by
    have := window_getD df i (L + 1) 0 (by omega)
    simpa using this
  have hL : ((df.drop i).take (L + 1)).getD (((df.drop i).take (L + 1)).length - 1) default =
      df.getD (i + L) default := by
    rw [hwlen]
    simpa using window_getD df i (L + 1) L (by omega)
  unfold pc_window
  rw [h0, hL]


/-- The fold accumulator is below the running maximum. -/
lemma foldl_max_le_init (l : List Bar) (a : ℚ) :
    a ≤ l.foldl (fun x d => max x d.c) a := by
  induction l generalizing a with
  | nil => exact le_refl a
  | cons b bs ih =>
    calc a ≤ max a b.c := le_max_left a b.c
    _ ≤ bs.foldl (fun x d => max x d.c) (max a b.c) := ih (max a b.c)

/-- Every close in the list is below the running maximum. -/
lemma foldl_max_mem_le (l : List Bar) (a : ℚ) (b : Bar) (hb : b ∈ l) :
    b.c ≤ l.foldl (fun x d => max x d.c) a := by
  induction l generalizing a with
  | nil => simp at hb
  | cons x xs ih =>
    rcases List.mem_cons.mp hb with h | h
    · subst h
      calc b.c ≤ max a b.c := le_max_right a b.c
      _ ≤ xs.foldl (fun x d => max x d.c) (max a b.c) := foldl_max_le_init xs _
    · exact ih (max a x.c) h

/-- The running maximum is either the seed or the close of some list element. -/
lemma foldl_max_eq (l : List Bar) (a : ℚ) :
    l.foldl (fun x d => max x d.c) a = a ∨
      ∃ b ∈ l, l.foldl (fun x d => max x d.c) a = b.c := by
  induction l generalizing a with
  | nil => exact Or.inl rfl
  | cons x xs ih =>
    rcases ih (max a x.c) with hcase | ⟨b, hb, hbe⟩
    · rcases le_total a x.c with hax | hxa
      · refine Or.inr ⟨x, List.mem_cons_self x xs, ?_⟩
        rw [List.foldl_cons, hcase, max_eq_right hax]
      · refine Or.inl ?_
        rw [List.foldl_cons, hcase, max_eq_left hxa]
    · exact Or.inr ⟨b, List.mem_cons_of_mem x hb, by rw [List.foldl_cons, hbe]⟩

/-- Every close in a window is at most the window's maximum close. -/
lemma le_maxClose (w : List Bar) (b : Bar) (hb : b ∈ w) : b.c ≤ maxClose w := by
  cases w with
  | nil => simp at hb
  | cons x xs =>
    unfold maxClose
    rcases List.mem_cons.mp hb with h | h
    · subst h
      exact foldl_max_le_init xs b.c
    · exact foldl_max_mem_le xs x.c b h

/-- A nonempty window's maximum close is the close of one of its bars. -/
lemma maxClose_mem (w : List Bar) (hw : w ≠ []) : ∃ b ∈ w, maxClose w = b.c := by
  cases w with
  | nil => exact absurd rfl hw
  | cons x xs =>
    unfold maxClose
    rcases foldl_max_eq xs x.c with hcase | ⟨b, hb, hbe⟩
    · exact ⟨x, List.mem_cons_self x xs, hcase⟩
    · exact ⟨b, List.mem_cons_of_mem x hb, hbe⟩

/-- Indexing into a prefix is indexing into the list. -/
lemma take_getD {α : Type} [Inhabited α] (df : List α) (m j : ℕ) (hj : j < m) :
    (df.take m).getD j default = df.getD j default := by
  have h0 := window_getD df 0 m j hj
  simpa using h0

/-- The new-high flag at index `i` is set iff the close at `i` dominates every
close in the prefix `[0, i]`. -/
lemma new_high_getD_iff (df : List Bar) (i : ℕ) (hi : i < df.length) :
    ((new_high df).getD i false = true ↔
      ∀ j, j ≤ i → (df.getD j default).c ≤ (df.getD i default).c) := by
  have hw : (new_high df).getD i false = is_high (df.take (i + 1)) := by
    unfold new_high
    exact getD_range_map _ _ i hi
  have hwlen : (df.take (i + 1)).length = i + 1 := by
    rw [List.length_take]
    omega
  have hlast : (df.take (i + 1)).getD ((df.take (i + 1)).length - 1) default =
      df.getD i default := by
    rw [hwlen]
    simpa using take_getD df (i + 1) i (by omega)
  have hne : df.take (i + 1) ≠ [] := by
    intro hnil
    rw [hnil] at hwlen
    simp at hwlen
  rw [hw]
  unfold is_high
  rw [hlast, decide_eq_true_iff]
  constructor
  · intro hmax j hj
    have hjlt : j < (df.take (i + 1)).length := by omega
    have hjmem : (df.take (i + 1)).getD j default ∈ df.take (i + 1) := by
      rw [getD_eq_getElem' _ j hjlt]
      exact List.getElem_mem hjlt
    have := le_maxClose (df.take (i + 1)) _ hjmem
    rw [take_getD df (i + 1) j (by omega)] at this
    rw [← hmax] at this
    exact this
  · intro hub
    have hup : maxClose (df.take (i + 1)) ≤ (df.getD i default).c := by
      obtain ⟨b, hbmem, hbe⟩ := maxClose_mem (df.take (i + 1)) hne
      obtain ⟨t, ht, hbt⟩ := List.getElem_of_mem hbmem
      rw [hwlen] at ht
      have hbg : (df.take (i + 1)).getD t default = b := by
        rw [getD_eq_getElem' _ t (by omega)]
        exact hbt
      rw [take_getD df (i + 1) t (by omega)] at hbg
      rw [hbe, ← hbg]
      exact hub t (by omega)
    have hlow : (df.getD i default).c ≤ maxClose (df.take (i + 1)) := by
      have himem : (df.take (i + 1)).getD i default ∈ df.take (i + 1) := by
        rw [getD_eq_getElem' _ i (by omega)]
        exact List.getElem_mem (by omega)
      have := le_maxClose (df.take (i + 1)) _ himem
      rw [take_getD df (i + 1) i (by omega)] at this
      exact this
    exact le_antisymm hlow hup


/-- Sums of pointwise sums split. -/
lemma sum_map_add {α : Type} (l : List α) (f g : α → ℕ) :
    (l.map (fun x => f x + g x)).sum = (l.map f).sum + (l.map g).sum := by
  induction l with
  | nil => rfl
  | cons x xs ih =>
    simp only [List.map_cons, List.sum_cons, ih]
    omega

/-- A sum of indicator values is a `countP`. -/
lemma sum_ite_eq_countP {α : Type} (l : List α) (p : α → Bool) :
    (l.map (fun x => if p x then 1 else 0)).sum = l.countP p := by
  induction l with
  | nil => rfl
  | cons x xs ih =>
    simp only [List.map_cons, List.sum_cons, List.countP_cons, ih]
    cases hx : p x <;> simp [Nat.add_comm]

/-- Double counting: totalling per-key column counts equals totalling per-bar
key counts. -/
lemma count_transpose {α : Type} (keys : List (α → Bool)) (w : List α) :
    (keys.map (fun k => (w.map k).count true)).sum =
      (w.map (fun b => keys.countP (fun kk => kk b))).sum := by
  induction w with
  | nil => simp
  | cons b w ih =>
    have hmap : (keys.map (fun k => ((b :: w).map k).count true)) =
        (keys.map (fun k => (w.map k).count true + (if k b then 1 else 0))) := by
      apply List.map_congr_left
      intro k _
      cases hkb : k b <;> simp [List.count_cons, hkb]
    have hadd : (keys.map (fun k => (w.map k).count true + (if k b then 1 else 0))).sum =
        (keys.map (fun k => (w.map k).count true)).sum +
          (keys.map (fun k => if k b then 1 else 0)).sum :=
      sum_map_add keys (fun k => (w.map k).count true) (fun k => if k b then 1 else 0)
    have hcnt : (keys.map (fun k => if k b then 1 else 0)).sum =
        keys.countP (fun kk => kk b) :=
      sum_ite_eq_countP keys (fun kk => kk b)
    rw [hmap, hadd, List.map_cons, List.sum_cons, ih, hcnt]
    exact Nat.add_comm _ _

/-- The fold in `_freq` is the sum of the per-key counts. -/
lemma freq_window_eq_sum {α : Type} (keys : List (α → Bool)) (w : List α) :
    freq_window keys w = (w.map (fun b => keys.countP (fun kk => kk b))).sum := by
  unfold freq_window
  have hf : ∀ (l : List ℕ) (a : ℕ), l.foldl (fun x y => x + y) a = a + l.sum := by
    intro l
    induction l with
    | nil => intro a; simp
    | cons x xs ih => intro a; simp [ih (a + x), Nat.add_assoc]
  rw [hf, Nat.zero_add, count_transpose]


/-- Indexing into a dropped list shifts the index. -/
lemma drop_getD {α : Type} [Inhabited α] (l : List α) (m j : ℕ) :
    (l.drop m).getD j default = l.getD (m + j) default := by
  rw [List.getD_eq_getElem?_getD, List.getElem?_drop, ← List.getD_eq_getElem?_getD]

/-- For nonzero `lag`, the smoothed gains are the seed followed by the chain of
Wilder steps over the remaining gains. -/
lemma avg_gain_ok (df : List Bar) (lag : ℕ) (hlag : lag ≠ 0) :
    avg_gain df lag =
      .ok ((((rsi_gains df).take lag).foldl (fun a b => a + b) 0 / (lag : ℚ)) ::
        chain (fun p x => (p * 13 + x) / 14)
          (((rsi_gains df).take lag).foldl (fun a b => a + b) 0 / (lag : ℚ))
          ((rsi_gains df).drop lag)) := by
  unfold avg_gain
  rw [if_neg hlag]
  have hfold := foldl_append_chain (fun p x => (p * 13 + x) / 14) (fun x : ℚ => x)
    ((rsi_gains df).drop lag)
    [((rsi_gains df).take lag).foldl (fun a b => a + b) 0 / (lag : ℚ)]
  simp only [List.map_id'] at hfold
  rw [hfold]
  simp

/-- For nonzero `lag`, the smoothed losses are the seed followed by the chain of
Wilder steps over the remaining losses. -/
lemma avg_loss_ok (df : List Bar) (lag : ℕ) (hlag : lag ≠ 0) :
    avg_loss df lag =
      .ok ((((rsi_losses df).take lag).foldl (fun a b => a + b) 0 / (lag : ℚ)) ::
        chain (fun p x => (p * 13 + x) / 14)
          (((rsi_losses df).take lag).foldl (fun a b => a + b) 0 / (lag : ℚ))
          ((rsi_losses df).drop lag)) := by
  unfold avg_loss
  rw [if_neg hlag]
  have hfold := foldl_append_chain (fun p x => (p * 13 + x) / 14) (fun x : ℚ => x)
    ((rsi_losses df).drop lag)
    [((rsi_losses df).take lag).foldl (fun a b => a + b) 0 / (lag : ℚ)]
  simp only [List.map_id'] at hfold
  rw [hfold]
  simp

/-- A successful `mapE` preserves the length. -/
lemma mapE_ok_length {α β : Type} (f : α → Except PyErr β) (l : List α) (ys : List β)
    (h : mapE f l = .ok ys) : ys.length = l.length := by
  induction l generalizing ys with
  | nil =>
    cases h
    rfl
  | cons x xs ih =>
    unfold mapE at h
    cases hfx : f x with
    | error e => rw [hfx] at h; cases h
    | ok y =>
      rw [hfx] at h
      cases hxs : mapE f xs with
      | error e => rw [hxs] at h; cases h
      | ok zs =>
        rw [hxs] at h
        cases h
        simp [ih zs hxs]

/-- A successful `mapE` means the body succeeded on every element. -/
lemma mapE_ok_mem {α β : Type} (f : α → Except PyErr β) (l : List α) (ys : List β)
    (h : mapE f l = .ok ys) : ∀ x ∈ l, ∃ y, f x = .ok y := by
  induction l generalizing ys with
  | nil => intro x hx; simp at hx
  | cons a as ih =>
    intro x hx
    unfold mapE at h
    cases hfa : f a with
    | error e => rw [hfa] at h; cases h
    | ok y =>
      rw [hfa] at h
      cases has : mapE f as with
      | error e => rw [has] at h; cases h
      | ok zs =>
        rcases List.mem_cons.mp hx with hx | hx
        · exact ⟨y, hx ▸ hfa⟩
        · exact ih zs has x hx

/-- The RSI output list is never empty when `rsi` succeeds: the smoothed lists
always keep at least their seed, and the final trim keeps at least one row. -/
lemma rsi_ok_ne_nil (df : List Bar) (lag : ℕ) (l : List ℚ)
    (hl : rsi df lag = .ok l) : l ≠ [] := by
  by_cases hlag0 : lag = 0
  · unfold rsi avg_gain at hl
    rw [if_pos hlag0, except_bind_error] at hl
    cases hl
  · have hG := avg_gain_ok df lag hlag0
    have hL := avg_loss_ok df lag hlag0
    unfold rsi at hl
    rw [hG, except_bind_ok, hL, except_bind_ok] at hl
    cases hraw : mapE (fun i =>
        if ((((rsi_losses df).take lag).foldl (fun a b => a + b) 0 / (lag : ℚ)) ::
            chain (fun p x => (p * 13 + x) / 14)
              (((rsi_losses df).take lag).foldl (fun a b => a + b) 0 / (lag : ℚ))
              ((rsi_losses df).drop lag)).getD i 0 = 0
        then .error .zeroDivisionError
        else .ok (round2 (100 - 100 /
          (1 + ((((rsi_gains df).take lag).foldl (fun a b => a + b) 0 / (lag : ℚ)) ::
              chain (fun p x => (p * 13 + x) / 14)
                (((rsi_gains df).take lag).foldl (fun a b => a + b) 0 / (lag : ℚ))
                ((rsi_gains df).drop lag)).getD i 0 /
            ((((rsi_losses df).take lag).foldl (fun a b => a + b) 0 / (lag : ℚ)) ::
              chain (fun p x => (p * 13 + x) / 14)
                (((rsi_losses df).take lag).foldl (fun a b => a + b) 0 / (lag : ℚ))
                ((rsi_losses df).drop lag)).getD i 0))))
      (List.range ((((rsi_gains df).take lag).foldl (fun a b => a + b) 0 / (lag : ℚ)) ::
        chain (fun p x => (p * 13 + x) / 14)
          (((rsi_gains df).take lag).foldl (fun a b => a + b) 0 / (lag : ℚ))
          ((rsi_gains df).drop lag)).length) with
    | error e =>
      rw [hraw, except_bind_error] at hl
      cases hl
    | ok raw =>
      rw [hraw, except_bind_ok] at hl
      have hleq : (List.range (negSlice df raw.length).length).map
          (fun i => raw.getD i 0) = l := (Except.ok.injEq _ _).mp hl
      intro hnil
      rw [← hleq] at hnil
      have hlen0 := congrArg List.length hnil
      simp only [List.length_map, List.length_range, List.length_nil] at hlen0
      have hrawlen := mapE_ok_length _ _ _ hraw
      simp only [List.length_range, List.length_cons] at hrawlen
      have hrawpos : raw.length ≠ 0 := by omega
      have hdflen : df.length = 0 := by
        unfold negSlice at hlen0
        rw [if_neg hrawpos] at hlen0
        simp only [List.length_drop] at hlen0
        omega
      have hdf : df = [] := List.length_eq_zero.mp hdflen
      subst hdf
      have h0mem : 0 ∈ List.range ((((rsi_gains ([] : List Bar)).take lag).foldl
          (fun a b => a + b) 0 / (lag : ℚ)) ::
        chain (fun p x => (p * 13 + x) / 14)
          (((rsi_gains ([] : List Bar)).take lag).foldl (fun a b => a + b) 0 / (lag : ℚ))
          ((rsi_gains ([] : List Bar)).drop lag)).length := by
        simp
      obtain ⟨y, hy⟩ := mapE_ok_mem _ _ _ hraw 0 h0mem
      have hseed0 : ((((rsi_losses ([] : List Bar)).take lag).foldl
          (fun a b => a + b) 0 / (lag : ℚ)) ::
          chain (fun p x => (p * 13 + x) / 14)
            (((rsi_losses ([] : List Bar)).take lag).foldl (fun a b => a + b) 0 / (lag : ℚ))
            ((rsi_losses ([] : List Bar)).drop lag)).getD 0 0 = 0 := by
        rw [List.getD_cons_zero]
        have : rsi_losses ([] : List Bar) = [] := rfl
        rw [this]
        simp
      rw [hseed0] at hy
      rw [if_pos rfl] at hy
      cases hy


/-- C3: For `len(S) > L`, `ema(S, key, L)` succeeds with a list of length
`len(S) - L` whose first element is `moving_avg(S, key, L)[0]` and whose element
`j+1` is obtained from element `j` by the rounded smoothing step with multiplier
`2/(L+1)` applied to the field value at input index `L+1+j` (rounding at every
step). -/
theorem ema_seed_and_recursion (df : List Bar) (key : Bar → ℚ) (L : ℕ)
    (h : L < df.length) :
    ∃ l, ema df key L = .ok l ∧
      l.length = df.length - L ∧
      l.head? = (moving_avg df key L).head? ∧
      ∀ j, j + 1 < df.length - L →
        l.getD (j + 1) 0 =
          round2 ((key (df.getD (L + 1 + j) default) - l.getD j 0) * (2 / ((L : ℚ) + 1)) +
            l.getD j 0) := by
  refine ⟨_, ema_ok df key L h, ?_, ?_, ?_⟩
  · simp only [List.length_cons, chain_length, List.length_map, List.length_range']
    omega
  · rw [moving_avg_head df key L h]
    rfl
  · intro j hj
    have hxs : j < ((List.range' (L + 1) (df.length - (L + 1))).map
        (fun i => key (df.getD i default))).length := by
      simp only [List.length_map, List.length_range']
      omega
    have hstep := cons_chain_getD_succ
      (fun p x => round2 ((x - p) * (2 / ((L : ℚ) + 1)) + p))
      (sma_window key (df.take (L + 1)))
      ((List.range' (L + 1) (df.length - (L + 1))).map (fun i => key (df.getD i default)))
      j hxs
    rw [hstep, getD_range'_map (fun i => key (df.getD i default)) (L + 1) _ j (by omega)]

/-- Witness for C3 on a concrete 3-bar series with lag 1. -/
theorem ema_seed_and_recursion_witness :
    (1 < ([⟨0,1,1,1,1,1⟩, ⟨1,1,1,1,2,1⟩, ⟨2,1,1,1,3,1⟩] : List Bar).length) ∧
    (∃ l, ema [⟨0,1,1,1,1,1⟩, ⟨1,1,1,1,2,1⟩, ⟨2,1,1,1,3,1⟩] Bar.c 1 = .ok l ∧
      l.length = ([⟨0,1,1,1,1,1⟩, ⟨1,1,1,1,2,1⟩, ⟨2,1,1,1,3,1⟩] : List Bar).length - 1 ∧
      l.head? = (moving_avg [⟨0,1,1,1,1,1⟩, ⟨1,1,1,1,2,1⟩, ⟨2,1,1,1,3,1⟩] Bar.c 1).head? ∧
      ∀ j, j + 1 < ([⟨0,1,1,1,1,1⟩, ⟨1,1,1,1,2,1⟩, ⟨2,1,1,1,3,1⟩] : List Bar).length - 1 →
        l.getD (j + 1) 0 =
          round2 ((Bar.c (([⟨0,1,1,1,1,1⟩, ⟨1,1,1,1,2,1⟩, ⟨2,1,1,1,3,1⟩] : List Bar).getD
              (1 + 1 + j) default) - l.getD j 0) * (2 / ((1 : ℚ) + 1)) + l.getD j 0)) :=
  ⟨by decide, ema_seed_and_recursion [⟨0,1,1,1,1,1⟩, ⟨1,1,1,1,2,1⟩, ⟨2,1,1,1,3,1⟩] Bar.c 1
    (by decide)⟩


/-- C4: For `fast < slow < n` and `1 <= signal < n - slow`, `macd` succeeds; the
histogram has length `min(len(ema slow), len(ema fast)) - signal = (n - slow) -
signal`, and each element is the right-trimmed MACD-line value minus the
signal-line value, rounded to 2 decimals. -/
theorem macd_histogram_spec (df : List Bar) (slow fast signal : ℕ)
    (hfs : fast < slow) (hsn : slow < df.length)
    (hsig1 : 1 ≤ signal) (hsig : signal < df.length - slow) :
    ∃ es ef ml sig l,
      ema df Bar.c slow = .ok es ∧ ema df Bar.c fast = .ok ef ∧
      macd_line_of df slow fast = .ok ml ∧
      calc_signal_line ml signal = .ok sig ∧
      macd df slow fast signal = .ok l ∧
      l.length = min es.length ef.length - signal ∧
      l.length = (df.length - slow) - signal ∧
      ∀ i, i < l.length →
        l.getD i 0 = round2 ((negSlice ml sig.length).getD i 0 - sig.getD i 0) := by
  obtain ⟨es, hes⟩ : ∃ es, ema df Bar.c slow = .ok es := ⟨_, ema_ok df Bar.c slow hsn⟩
  have heslen := ema_ok_length df Bar.c slow hsn es hes
  have hfn : fast < df.length := lt_trans hfs hsn
  obtain ⟨ef, hef⟩ : ∃ ef, ema df Bar.c fast = .ok ef := ⟨_, ema_ok df Bar.c fast hfn⟩
  have heflen := ema_ok_length df Bar.c fast hfn ef hef
  have hesne : es.length ≠ 0 := by omega
  have htrimlen : (negSlice ef es.length).length = es.length :=
    negSlice_length_of_le ef es.length hesne (by omega)
  have hml := calc_macd_line_ok es (negSlice ef es.length) (le_of_eq htrimlen.symm)
  have hmlo0 : macd_line_of df slow fast =
      .ok ((List.range es.length).map
        (fun i => round2 ((negSlice ef es.length).getD i 0 - es.getD i 0))) := by
    simp only [macd_line_of, hes, hef, except_bind_ok]
    exact hml
  obtain ⟨ml, hmlo, hmllen, hmlne⟩ :
      ∃ ml, macd_line_of df slow fast = .ok ml ∧ ml.length = es.length ∧ ml ≠ [] := by
    refine ⟨_, hmlo0, by simp, ?_⟩
    intro hnil
    have hlen0 := congrArg List.length hnil
    simp only [List.length_map, List.length_range, List.length_nil] at hlen0
    omega
  obtain ⟨sig, hsigline, hsiglen⟩ :
      ∃ s, calc_signal_line ml signal = .ok s ∧ s.length = 1 + (ml.length - (signal + 1)) :=
    ⟨_, calc_signal_line_ok ml signal hmlne, by simp [chain_length]; omega⟩
  have hmacd : macd df slow fast signal =
      .ok ((List.range sig.length).map
        (fun i => round2 ((negSlice ml sig.length).getD i 0 - sig.getD i 0))) := by
    simp only [macd, hmlo, hsigline, except_bind_ok]
  refine ⟨es, ef, ml, sig, _, hes, hef, hmlo, hsigline, hmacd, ?_, ?_, ?_⟩
  · simp only [List.length_map, List.length_range]
    have hmin : min es.length ef.length = es.length := Nat.min_eq_left (by omega)
    rw [hmin]
    omega
  · simp only [List.length_map, List.length_range]
    omega
  · intro i hi
    simp only [List.length_map, List.length_range] at hi
    exact getD_range_map _ _ i hi

/-- Witness for C4 on a concrete 4-bar series with fast 1, slow 2, signal 1. -/
theorem macd_histogram_spec_witness :
    ((1 : ℕ) < 2 ∧ (2 : ℕ) < ([⟨0,1,1,1,1,1⟩, ⟨1,1,1,1,2,1⟩, ⟨2,1,1,1,4,1⟩,
        ⟨3,1,1,1,8,1⟩] : List Bar).length ∧ (1 : ℕ) ≤ 1 ∧
      (1 : ℕ) < ([⟨0,1,1,1,1,1⟩, ⟨1,1,1,1,2,1⟩, ⟨2,1,1,1,4,1⟩,
        ⟨3,1,1,1,8,1⟩] : List Bar).length - 2) ∧
    (∃ es ef ml sig l,
      ema [⟨0,1,1,1,1,1⟩, ⟨1,1,1,1,2,1⟩, ⟨2,1,1,1,4,1⟩, ⟨3,1,1,1,8,1⟩] Bar.c 2 = .ok es ∧
      ema [⟨0,1,1,1,1,1⟩, ⟨1,1,1,1,2,1⟩, ⟨2,1,1,1,4,1⟩, ⟨3,1,1,1,8,1⟩] Bar.c 1 = .ok ef ∧
      macd_line_of [⟨0,1,1,1,1,1⟩, ⟨1,1,1,1,2,1⟩, ⟨2,1,1,1,4,1⟩, ⟨3,1,1,1,8,1⟩] 2 1 = .ok ml ∧
      calc_signal_line ml 1 = .ok sig ∧
      macd [⟨0,1,1,1,1,1⟩, ⟨1,1,1,1,2,1⟩, ⟨2,1,1,1,4,1⟩, ⟨3,1,1,1,8,1⟩] 2 1 1 = .ok l ∧
      l.length = min es.length ef.length - 1 ∧
      l.length = (([⟨0,1,1,1,1,1⟩, ⟨1,1,1,1,2,1⟩, ⟨2,1,1,1,4,1⟩,
        ⟨3,1,1,1,8,1⟩] : List Bar).length - 2) - 1 ∧
      ∀ i, i < l.length →
        l.getD i 0 = round2 ((negSlice ml sig.length).getD i 0 - sig.getD i 0)) :=
  ⟨⟨by decide, by decide, by decide, by decide⟩,
    macd_histogram_spec [⟨0,1,1,1,1,1⟩, ⟨1,1,1,1,2,1⟩, ⟨2,1,1,1,4,1⟩, ⟨3,1,1,1,8,1⟩]
      2 1 1 (by decide) (by decide) (by decide) (by decide)⟩

/-- C10: When the parameters are swapped so that `slow < fast < n`, the fast EMA
is strictly shorter than the slow EMA; the slow-length trim leaves it short, and
building the MACD line indexes it out of range, so `macd` fails with an
IndexError instead of returning a series. -/
theorem macd_swapped_params_index_error (df : List Bar) (slow fast signal : ℕ)
    (_h1 : 1 ≤ slow) (h2 : slow < fast) (h3 : fast < df.length) :
    macd df slow fast signal = .error .indexError := by
  have hsn : slow < df.length := lt_trans h2 h3
  obtain ⟨es, hes⟩ : ∃ es, ema df Bar.c slow = .ok es := ⟨_, ema_ok df Bar.c slow hsn⟩
  have heslen := ema_ok_length df Bar.c slow hsn es hes
  obtain ⟨ef, hef⟩ : ∃ ef, ema df Bar.c fast = .ok ef := ⟨_, ema_ok df Bar.c fast h3⟩
  have heflen := ema_ok_length df Bar.c fast h3 ef hef
  have htrim : negSlice ef es.length = ef := negSlice_of_ge ef es.length (by omega)
  have herr : calc_macd_line es (negSlice ef es.length) = .error .indexError := by
    rw [htrim]
    exact calc_macd_line_error es ef (by omega)
  simp only [macd, macd_line_of, hes, hef, except_bind_ok, herr, except_bind_error]

/-- Witness for C10 on a concrete 4-bar series with slow 1, fast 2. -/
theorem macd_swapped_params_index_error_witness :
    ((1 : ℕ) ≤ 1 ∧ (1 : ℕ) < 2 ∧ (2 : ℕ) < ([⟨0,1,1,1,1,1⟩, ⟨1,1,1,1,2,1⟩,
      ⟨2,1,1,1,4,1⟩, ⟨3,1,1,1,8,1⟩] : List Bar).length) ∧
    macd [⟨0,1,1,1,1,1⟩, ⟨1,1,1,1,2,1⟩, ⟨2,1,1,1,4,1⟩, ⟨3,1,1,1,8,1⟩] 1 2 1 =
      .error .indexError :=
  ⟨⟨by decide, by decide, by decide⟩,
    macd_swapped_params_index_error [⟨0,1,1,1,1,1⟩, ⟨1,1,1,1,2,1⟩, ⟨2,1,1,1,4,1⟩,
      ⟨3,1,1,1,8,1⟩] 1 2 1 (by decide) (by decide) (by decide)⟩


/-- C7: For `lag >= 1` and `n > lag + 1` (and, when normalizing, nonzero closes
at the divisor positions), `atr` first computes the `n-1` true ranges
`max(h[i+1]-l[i+1], h[i+1]-c[i], l[i+1]-c[i])` (divided by `c[i+1]` when
`normalize` is set), then smooths them with a simple moving average of window
`lag+1` rounded to 2 decimals, giving output length `n - 1 - lag`. -/
theorem atr_true_range_sma (df : List Bar) (lag : ℕ) (normalize : Bool)
    (hlag : 1 ≤ lag) (hn : lag + 1 < df.length)
    (hnz : normalize = true → ∀ i, 1 ≤ i → i < df.length → (df.getD i default).c ≠ 0) :
    ∃ tr l, true_ranges df normalize = .ok tr ∧ atr df lag normalize = .ok l ∧
      tr.length = df.length - 1 ∧
      (∀ i, i < df.length - 1 → tr.getD i 0 =
        max (max ((df.getD (i + 1) default).h - (df.getD (i + 1) default).l)
            ((df.getD (i + 1) default).h - (df.getD i default).c))
          ((df.getD (i + 1) default).l - (df.getD i default).c) /
          (if normalize then (df.getD (i + 1) default).c else 1)) ∧
      l.length = df.length - 1 - lag ∧
      (∀ k, k < df.length - 1 - lag →
        l.getD k 0 = round2 (((tr.drop k).take (lag + 1)).sum / ((lag : ℚ) + 1))) := by
  have htrok := true_ranges_ok df normalize hnz
  obtain ⟨tr, htr, htrlen⟩ :
      ∃ tr, true_ranges df normalize = .ok tr ∧ tr.length = df.length - 1 :=
    ⟨_, htrok, by simp⟩
  have htrget : ∀ i, i < df.length - 1 → tr.getD i 0 =
      max (max ((df.getD (i + 1) default).h - (df.getD (i + 1) default).l)
          ((df.getD (i + 1) default).h - (df.getD i default).c))
        ((df.getD (i + 1) default).l - (df.getD i default).c) /
        (if normalize then (df.getD (i + 1) default).c else 1) := by
    intro i hi
    have : tr = (List.range (df.length - 1)).map
        (fun i => max (max ((df.getD (i + 1) default).h - (df.getD (i + 1) default).l)
            ((df.getD (i + 1) default).h - (df.getD i default).c))
          ((df.getD (i + 1) default).l - (df.getD i default).c) /
          (if normalize then (df.getD (i + 1) default).c else 1)) := by
      rw [htrok] at htr
      exact (Except.ok.injEq _ _).mp htr.symm
    rw [this]
    exact getD_range_map _ _ i hi
  have hatr : atr df lag normalize =
      .ok ((List.range (tr.length - lag)).map
        (fun i => sma_q ((tr.drop i).take (lag + 1)))) := by
    simp only [atr, htr, except_bind_ok]
  refine ⟨tr, _, htr, hatr, htrlen, htrget, ?_, ?_⟩
  · simp only [List.length_map, List.length_range]
    omega
  · intro k hk
    have hkk : k < tr.length - lag := by omega
    have hwin : ((tr.drop k).take (lag + 1)).length = lag + 1 :=
      window_length tr k (lag + 1) (by omega)
    have hg := getD_range_map (fun i => sma_q ((tr.drop i).take (lag + 1)))
      (tr.length - lag) k hkk
    exact hg.trans (sma_q_eq_mean _ lag hwin)

/-- Witness for C7 on a concrete 4-bar normalized ATR with lag 1. -/
theorem atr_true_range_sma_witness :
    ((1 : ℕ) ≤ 1 ∧ (1 : ℕ) + 1 < ([⟨0,1,3,1,2,1⟩, ⟨1,2,4,2,3,1⟩, ⟨2,3,5,2,4,1⟩,
      ⟨3,4,6,3,5,1⟩] : List Bar).length ∧
      (true = true → ∀ i, 1 ≤ i → i < ([⟨0,1,3,1,2,1⟩, ⟨1,2,4,2,3,1⟩, ⟨2,3,5,2,4,1⟩,
        ⟨3,4,6,3,5,1⟩] : List Bar).length →
        (([⟨0,1,3,1,2,1⟩, ⟨1,2,4,2,3,1⟩, ⟨2,3,5,2,4,1⟩,
          ⟨3,4,6,3,5,1⟩] : List Bar).getD i default).c ≠ 0)) ∧
    (∃ tr l, true_ranges [⟨0,1,3,1,2,1⟩, ⟨1,2,4,2,3,1⟩, ⟨2,3,5,2,4,1⟩,
        ⟨3,4,6,3,5,1⟩] true = .ok tr ∧
      atr [⟨0,1,3,1,2,1⟩, ⟨1,2,4,2,3,1⟩, ⟨2,3,5,2,4,1⟩, ⟨3,4,6,3,5,1⟩] 1 true = .ok l ∧
      tr.length = ([⟨0,1,3,1,2,1⟩, ⟨1,2,4,2,3,1⟩, ⟨2,3,5,2,4,1⟩,
        ⟨3,4,6,3,5,1⟩] : List Bar).length - 1 ∧
      (∀ i, i < ([⟨0,1,3,1,2,1⟩, ⟨1,2,4,2,3,1⟩, ⟨2,3,5,2,4,1⟩,
          ⟨3,4,6,3,5,1⟩] : List Bar).length - 1 → tr.getD i 0 =
        max (max ((([⟨0,1,3,1,2,1⟩, ⟨1,2,4,2,3,1⟩, ⟨2,3,5,2,4,1⟩,
            ⟨3,4,6,3,5,1⟩] : List Bar).getD (i + 1) default).h -
            (([⟨0,1,3,1,2,1⟩, ⟨1,2,4,2,3,1⟩, ⟨2,3,5,2,4,1⟩,
            ⟨3,4,6,3,5,1⟩] : List Bar).getD (i + 1) default).l)
            ((([⟨0,1,3,1,2,1⟩, ⟨1,2,4,2,3,1⟩, ⟨2,3,5,2,4,1⟩,
            ⟨3,4,6,3,5,1⟩] : List Bar).getD (i + 1) default).h -
            (([⟨0,1,3,1,2,1⟩, ⟨1,2,4,2,3,1⟩, ⟨2,3,5,2,4,1⟩,
            ⟨3,4,6,3,5,1⟩] : List Bar).getD i default).c))
          ((([⟨0,1,3,1,2,1⟩, ⟨1,2,4,2,3,1⟩, ⟨2,3,5,2,4,1⟩,
            ⟨3,4,6,3,5,1⟩] : List Bar).getD (i + 1) default).l -
            (([⟨0,1,3,1,2,1⟩, ⟨1,2,4,2,3,1⟩, ⟨2,3,5,2,4,1⟩,
            ⟨3,4,6,3,5,1⟩] : List Bar).getD i default).c) /
          (if true then (([⟨0,1,3,1,2,1⟩, ⟨1,2,4,2,3,1⟩, ⟨2,3,5,2,4,1⟩,
            ⟨3,4,6,3,5,1⟩] : List Bar).getD (i + 1) default).c else 1)) ∧
      l.length = ([⟨0,1,3,1,2,1⟩, ⟨1,2,4,2,3,1⟩, ⟨2,3,5,2,4,1⟩,
        ⟨3,4,6,3,5,1⟩] : List Bar).length - 1 - 1 ∧
      (∀ k, k < ([⟨0,1,3,1,2,1⟩, ⟨1,2,4,2,3,1⟩, ⟨2,3,5,2,4,1⟩,
          ⟨3,4,6,3,5,1⟩] : List Bar).length - 1 - 1 →
        l.getD k 0 = round2 (((tr.drop k).take (1 + 1)).sum / ((1 : ℚ) + 1)))) :=
  ⟨⟨by decide, by decide, by decide⟩,
    atr_true_range_sma [⟨0,1,3,1,2,1⟩, ⟨1,2,4,2,3,1⟩, ⟨2,3,5,2,4,1⟩, ⟨3,4,6,3,5,1⟩]
      1 true (by decide) (by decide) (by decide)⟩


/-- C6: For `len(S) > L`, if every window-start close is nonzero then
`percent_change` returns the rounded percent change for each window; if some
window-start close is zero it fails with a ZeroDivisionError rather than
producing a value. -/
theorem percent_change_values_and_div_zero (df : List Bar) (L : ℕ)
    (h : L < df.length) :
    ((∀ i, i < df.length - L → (df.getD i default).c ≠ 0) →
      ∃ l, percent_change df L = .ok l ∧ l.length = df.length - L ∧
        ∀ i, i < df.length - L → l.getD i 0 =
          round2 (((df.getD (i + L) default).c - (df.getD i default).c) /
            (df.getD i default).c * 100)) ∧
    ((∃ i, i < df.length - L ∧ (df.getD i default).c = 0) →
      percent_change df L = .error .zeroDivisionError) := by
  constructor
  · intro hnz
    have hok : percent_change df L =
        .ok ((List.range (df.length - L)).map
          (fun i => round2 (((df.getD (i + L) default).c - (df.getD i default).c) /
            (df.getD i default).c * 100))) := by
      apply mapE_ok_of_forall
      intro i hi
      have hi' := List.mem_range.mp hi
      rw [pc_window_eval df i L (by omega)]
      rw [if_neg (hnz i hi')]
    refine ⟨_, hok, by simp, ?_⟩
    intro i hi
    exact getD_range_map _ _ i hi
  · intro ⟨i, hi, hzero⟩
    apply mapE_error
    · intro x hx e he
      have hx' := List.mem_range.mp hx
      rw [pc_window_eval df x L (by omega)] at he
      by_cases hxc : (df.getD x default).c = 0
      · rw [if_pos hxc] at he
        cases he
        rfl
      · rw [if_neg hxc] at he
        cases he
    · refine ⟨i, List.mem_range.mpr hi, .zeroDivisionError, ?_⟩
      rw [pc_window_eval df i L (by omega), if_pos hzero]

/-- Witness for C6 on a concrete 3-bar series with lag 1. -/
theorem percent_change_values_and_div_zero_witness :
    (1 < ([⟨0,1,1,1,10,1⟩, ⟨1,1,1,1,20,1⟩, ⟨2,1,1,1,30,1⟩] : List Bar).length) ∧
    (((∀ i, i < ([⟨0,1,1,1,10,1⟩, ⟨1,1,1,1,20,1⟩, ⟨2,1,1,1,30,1⟩] : List Bar).length - 1 →
        (([⟨0,1,1,1,10,1⟩, ⟨1,1,1,1,20,1⟩, ⟨2,1,1,1,30,1⟩] : List Bar).getD i default).c ≠ 0) →
      ∃ l, percent_change [⟨0,1,1,1,10,1⟩, ⟨1,1,1,1,20,1⟩, ⟨2,1,1,1,30,1⟩] 1 = .ok l ∧
        l.length = ([⟨0,1,1,1,10,1⟩, ⟨1,1,1,1,20,1⟩, ⟨2,1,1,1,30,1⟩] : List Bar).length - 1 ∧
        ∀ i, i < ([⟨0,1,1,1,10,1⟩, ⟨1,1,1,1,20,1⟩, ⟨2,1,1,1,30,1⟩] : List Bar).length - 1 →
          l.getD i 0 =
            round2 (((([⟨0,1,1,1,10,1⟩, ⟨1,1,1,1,20,1⟩, ⟨2,1,1,1,30,1⟩] : List Bar).getD
                (i + 1) default).c -
              (([⟨0,1,1,1,10,1⟩, ⟨1,1,1,1,20,1⟩, ⟨2,1,1,1,30,1⟩] : List Bar).getD i default).c) /
              (([⟨0,1,1,1,10,1⟩, ⟨1,1,1,1,20,1⟩, ⟨2,1,1,1,30,1⟩] : List Bar).getD i default).c *
              100)) ∧
    ((∃ i, i < ([⟨0,1,1,1,10,1⟩, ⟨1,1,1,1,20,1⟩, ⟨2,1,1,1,30,1⟩] : List Bar).length - 1 ∧
        (([⟨0,1,1,1,10,1⟩, ⟨1,1,1,1,20,1⟩, ⟨2,1,1,1,30,1⟩] : List Bar).getD i default).c = 0) →
      percent_change [⟨0,1,1,1,10,1⟩, ⟨1,1,1,1,20,1⟩, ⟨2,1,1,1,30,1⟩] 1 =
        .error .zeroDivisionError)) :=
  ⟨by decide, percent_change_values_and_div_zero
    [⟨0,1,1,1,10,1⟩, ⟨1,1,1,1,20,1⟩, ⟨2,1,1,1,30,1⟩] 1 (by decide)⟩


/-- C8: `new_high(S)` has length `n`; entry `i` is true iff the close at `i`
equals the maximum close over the prefix `[0, i]` (equivalently, dominates
every close there, so ties count); hence a strictly increasing close series is
all true, and one strictly decreasing after index 0 is false from index 1 on. -/
theorem new_high_expanding_max (df : List Bar) :
    (new_high df).length = df.length ∧
    (∀ i, i < df.length →
      ((new_high df).getD i false = true ↔
        ∀ j, j ≤ i → (df.getD j default).c ≤ (df.getD i default).c)) ∧
    ((∀ j k, j < k → k < df.length →
        (df.getD j default).c < (df.getD k default).c) →
      ∀ i, i < df.length → (new_high df).getD i false = true) ∧
    ((∀ j k, j < k → k < df.length →
        (df.getD k default).c < (df.getD j default).c) →
      ∀ i, 1 ≤ i → i < df.length → (new_high df).getD i false = false) := by
  refine ⟨by simp [new_high], fun i hi => new_high_getD_iff df i hi, ?_, ?_⟩
  · intro hinc i hi
    rw [new_high_getD_iff df i hi]
    intro j hj
    rcases Nat.lt_or_ge j i with hlt | hge
    · exact le_of_lt (hinc j i hlt hi)
    · have : j = i := by omega
      rw [this]
  · intro hdec i hi1 hi
    have hnot : ¬ ((new_high df).getD i false = true) := by
      rw [new_high_getD_iff df i hi]
      intro hub
      have h0 := hdec 0 i (by omega) hi
      have := hub 0 (by omega)
      exact absurd this (not_le.mpr h0)
    exact Bool.not_eq_true _ |>.mp hnot

/-- Witness for C8 on a concrete 3-bar strictly increasing series. -/
theorem new_high_expanding_max_witness :
    (new_high [⟨0,1,1,1,1,1⟩, ⟨1,1,1,1,2,1⟩, ⟨2,1,1,1,3,1⟩]).length =
      ([⟨0,1,1,1,1,1⟩, ⟨1,1,1,1,2,1⟩, ⟨2,1,1,1,3,1⟩] : List Bar).length ∧
    (∀ i, i < ([⟨0,1,1,1,1,1⟩, ⟨1,1,1,1,2,1⟩, ⟨2,1,1,1,3,1⟩] : List Bar).length →
      ((new_high [⟨0,1,1,1,1,1⟩, ⟨1,1,1,1,2,1⟩, ⟨2,1,1,1,3,1⟩]).getD i false = true ↔
        ∀ j, j ≤ i →
          (([⟨0,1,1,1,1,1⟩, ⟨1,1,1,1,2,1⟩, ⟨2,1,1,1,3,1⟩] : List Bar).getD j default).c ≤
          (([⟨0,1,1,1,1,1⟩, ⟨1,1,1,1,2,1⟩, ⟨2,1,1,1,3,1⟩] : List Bar).getD i default).c)) ∧
    ((∀ j k, j < k → k < ([⟨0,1,1,1,1,1⟩, ⟨1,1,1,1,2,1⟩, ⟨2,1,1,1,3,1⟩] : List Bar).length →
        (([⟨0,1,1,1,1,1⟩, ⟨1,1,1,1,2,1⟩, ⟨2,1,1,1,3,1⟩] : List Bar).getD j default).c <
        (([⟨0,1,1,1,1,1⟩, ⟨1,1,1,1,2,1⟩, ⟨2,1,1,1,3,1⟩] : List Bar).getD k default).c) →
      ∀ i, i < ([⟨0,1,1,1,1,1⟩, ⟨1,1,1,1,2,1⟩, ⟨2,1,1,1,3,1⟩] : List Bar).length →
        (new_high [⟨0,1,1,1,1,1⟩, ⟨1,1,1,1,2,1⟩, ⟨2,1,1,1,3,1⟩]).getD i false = true) ∧
    ((∀ j k, j < k → k < ([⟨0,1,1,1,1,1⟩, ⟨1,1,1,1,2,1⟩, ⟨2,1,1,1,3,1⟩] : List Bar).length →
        (([⟨0,1,1,1,1,1⟩, ⟨1,1,1,1,2,1⟩, ⟨2,1,1,1,3,1⟩] : List Bar).getD k default).c <
        (([⟨0,1,1,1,1,1⟩, ⟨1,1,1,1,2,1⟩, ⟨2,1,1,1,3,1⟩] : List Bar).getD j default).c) →
      ∀ i, 1 ≤ i → i < ([⟨0,1,1,1,1,1⟩, ⟨1,1,1,1,2,1⟩, ⟨2,1,1,1,3,1⟩] : List Bar).length →
        (new_high [⟨0,1,1,1,1,1⟩, ⟨1,1,1,1,2,1⟩, ⟨2,1,1,1,3,1⟩]).getD i false = false) :=
  new_high_expanding_max [⟨0,1,1,1,1,1⟩, ⟨1,1,1,1,2,1⟩, ⟨2,1,1,1,3,1⟩]


/-- C9: For `n >= 31` and any boolean key set, `frequency` has length `n - 30`;
entry `k` sums, over the 31-bar window `S[k..k+30]`, the number of keys true at
each bar; the window is always exactly 31 bars, and the result does not depend
on the `lag` argument at all. -/
theorem frequency_fixed_31_window {α : Type} (df : List α) (keys : List (α → Bool))
    (lag lag' : ℕ) (h : 31 ≤ df.length) :
    (frequency df keys lag).length = df.length - 30 ∧
    (∀ k, k < df.length - 30 →
      ((df.drop k).take 31).length = 31 ∧
      (frequency df keys lag).getD k 0 =
        (((df.drop k).take 31).map (fun b => keys.countP (fun kk => kk b))).sum) ∧
    frequency df keys lag = frequency df keys lag' := by
  refine ⟨by simp [frequency], ?_, rfl⟩
  intro k hk
  refine ⟨window_length df k 31 (by omega), ?_⟩
  have hg : (frequency df keys lag).getD k 0 = freq_window keys ((df.drop k).take 31) := by
    unfold frequency
    exact getD_range_map _ _ k hk
  rw [hg, freq_window_eq_sum]

/-- Witness for C9 on a 32-element boolean series with the identity key. -/
theorem frequency_fixed_31_window_witness :
    (31 ≤ (List.replicate 32 true).length) ∧
    ((frequency (List.replicate 32 true) [fun b => b] 5).length =
      (List.replicate 32 true).length - 30 ∧
    (∀ k, k < (List.replicate 32 true).length - 30 →
      (((List.replicate 32 true).drop k).take 31).length = 31 ∧
      (frequency (List.replicate 32 true) [fun b => b] 5).getD k 0 =
        ((((List.replicate 32 true).drop k).take 31).map
          (fun b => [fun b : Bool => b].countP (fun kk => kk b))).sum) ∧
    frequency (List.replicate 32 true) [fun b => b] 5 =
      frequency (List.replicate 32 true) [fun b => b] 99) :=
  ⟨by decide, frequency_fixed_31_window (List.replicate 32 true) [fun b => b] 5 99
    (by decide)⟩


/-- C5: For `lag >= 1` and `n > lag + 1`, with no smoothed average loss zero,
`rsi` is built from per-bar gains `max(c[j+1]-c[j], 0)` and losses
`max(c[j]-c[j+1], 0)`, seeds with `sum of the first lag of them / lag`, smooths
every later value with the fixed `(prev*13 + new)/14` step regardless of `lag`,
and outputs `round(100 - 100/(1 + gain/loss), 2)` per index, `n - lag` values. -/
theorem rsi_wilder_fixed_constants (df : List Bar) (lag : ℕ)
    (hlag : 1 ≤ lag) (hn : lag + 1 < df.length)
    (hnz : ∀ i, i < df.length - lag →
      ((avg_loss df lag).toOption.getD []).getD i 0 ≠ 0) :
    ∃ G L out,
      avg_gain df lag = .ok G ∧ avg_loss df lag = .ok L ∧ rsi df lag = .ok out ∧
      G.length = df.length - lag ∧ L.length = df.length - lag ∧
      out.length = df.length - lag ∧
      (∀ j, j + 1 < df.length →
        (rsi_gains df).getD j 0 =
          max ((df.getD (j + 1) default).c - (df.getD j default).c) 0 ∧
        (rsi_losses df).getD j 0 =
          max ((df.getD j default).c - (df.getD (j + 1) default).c) 0) ∧
      G.getD 0 0 = ((rsi_gains df).take lag).sum / (lag : ℚ) ∧
      L.getD 0 0 = ((rsi_losses df).take lag).sum / (lag : ℚ) ∧
      (∀ j, j + 1 < df.length - lag →
        G.getD (j + 1) 0 = (G.getD j 0 * 13 + (rsi_gains df).getD (lag + j) 0) / 14 ∧
        L.getD (j + 1) 0 = (L.getD j 0 * 13 + (rsi_losses df).getD (lag + j) 0) / 14) ∧
      (∀ i, i < df.length - lag →
        out.getD i 0 = round2 (100 - 100 / (1 + G.getD i 0 / L.getD i 0))) := by
  have hlag0 : lag ≠ 0 := by omega
  have hglen : (rsi_gains df).length = df.length - 1 := by simp [rsi_gains]
  have hllen : (rsi_losses df).length = df.length - 1 := by simp [rsi_losses]
  obtain ⟨G, hG, hGlen, hGhead, hGrec⟩ :
      ∃ G, avg_gain df lag = .ok G ∧ G.length = df.length - lag ∧
        G.getD 0 0 = ((rsi_gains df).take lag).sum / (lag : ℚ) ∧
        ∀ j, j + 1 < df.length - lag →
          G.getD (j + 1) 0 = (G.getD j 0 * 13 + (rsi_gains df).getD (lag + j) 0) / 14 := by
    refine ⟨_, avg_gain_ok df lag hlag0, ?_, ?_, ?_⟩
    · simp only [List.length_cons, chain_length, List.length_drop, hglen]
      omega
    · rw [List.getD_cons_zero, foldl_add_eq, zero_add]
    · intro j hj
      have hxs : j < ((rsi_gains df).drop lag).length := by
        simp only [List.length_drop, hglen]
        omega
      have hstep := cons_chain_getD_succ (fun p x => (p * 13 + x) / 14)
        (((rsi_gains df).take lag).foldl (fun a b => a + b) 0 / (lag : ℚ))
        ((rsi_gains df).drop lag) j hxs
      have hx : ((rsi_gains df).drop lag).getD j 0 = (rsi_gains df).getD (lag + j) 0 :=
        drop_getD (rsi_gains df) lag j
      rw [hstep, hx]
  obtain ⟨L, hL, hLlen, hLhead, hLrec⟩ :
      ∃ L, avg_loss df lag = .ok L ∧ L.length = df.length - lag ∧
        L.getD 0 0 = ((rsi_losses df).take lag).sum / (lag : ℚ) ∧
        ∀ j, j + 1 < df.length - lag →
          L.getD (j + 1) 0 = (L.getD j 0 * 13 + (rsi_losses df).getD (lag + j) 0) / 14 := by
    refine ⟨_, avg_loss_ok df lag hlag0, ?_, ?_, ?_⟩
    · simp only [List.length_cons, chain_length, List.length_drop, hllen]
      omega
    · rw [List.getD_cons_zero, foldl_add_eq, zero_add]
    · intro j hj
      have hxs : j < ((rsi_losses df).drop lag).length := by
        simp only [List.length_drop, hllen]
        omega
      have hstep := cons_chain_getD_succ (fun p x => (p * 13 + x) / 14)
        (((rsi_losses df).take lag).foldl (fun a b => a + b) 0 / (lag : ℚ))
        ((rsi_losses df).drop lag) j hxs
      have hx : ((rsi_losses df).drop lag).getD j 0 = (rsi_losses df).getD (lag + j) 0 :=
        drop_getD (rsi_losses df) lag j
      rw [hstep, hx]
  have hnzL : ∀ i, i < L.length → L.getD i 0 ≠ 0 := by
    intro i hi
    have h' := hnz i (by omega)
    rw [hL] at h'
    simpa using h'
  obtain ⟨raw, hraw, hrawlen, hrawget⟩ :
      ∃ raw, mapE (fun i =>
          if L.getD i 0 = 0 then .error .zeroDivisionError
          else .ok (round2 (100 - 100 / (1 + G.getD i 0 / L.getD i 0))))
        (List.range G.length) = .ok raw ∧
        raw.length = df.length - lag ∧
        ∀ i, i < df.length - lag →
          raw.getD i 0 = round2 (100 - 100 / (1 + G.getD i 0 / L.getD i 0)) := by
    have hok := mapE_ok_of_forall
      (fun i => if L.getD i 0 = 0 then .error .zeroDivisionError
        else .ok (round2 (100 - 100 / (1 + G.getD i 0 / L.getD i 0))))
      (fun i => round2 (100 - 100 / (1 + G.getD i 0 / L.getD i 0)))
      (List.range G.length) ?_
    · refine ⟨_, hok, by simp [hGlen], ?_⟩
      intro i hi
      have := getD_range_map
        (fun i => round2 (100 - 100 / (1 + G.getD i 0 / L.getD i 0))) G.length i
        (by omega)
      exact this
    · intro i hi
      have hi' : i < L.length := by
        rw [hLlen]
        rw [← hGlen]
        exact List.mem_range.mp hi
      simp only [if_neg (hnzL i hi')]
  have hkne : raw.length ≠ 0 := by omega
  have hdfT : (negSlice df raw.length).length = df.length - lag := by
    rw [negSlice_length_of_le df raw.length hkne (by omega), hrawlen]
  have hrsi : rsi df lag =
      .ok ((List.range (negSlice df raw.length).length).map (fun i => raw.getD i 0)) := by
    simp only [rsi, hG, hL, except_bind_ok, hraw]
  refine ⟨G, L, _, hG, hL, hrsi, hGlen, hLlen, by simp [hdfT], ?_, hGhead, hLhead,
    fun j hj => ⟨hGrec j hj, hLrec j hj⟩, ?_⟩
  · intro j hj
    constructor
    · have hg := getD_range'_map
        (fun i => if (df.getD i default).c ≥ (df.getD (i - 1) default).c
          then (df.getD i default).c - (df.getD (i - 1) default).c else 0)
        1 (df.length - 1) j (by omega)
      have hg' : (rsi_gains df).getD j 0 =
          if (df.getD (1 + j) default).c ≥ (df.getD (1 + j - 1) default).c
          then (df.getD (1 + j) default).c - (df.getD (1 + j - 1) default).c else 0 := hg
      rw [hg', show (1 : ℕ) + j = j + 1 from Nat.add_comm 1 j]
      simp only [Nat.add_sub_cancel]
      by_cases hc : (df.getD (j + 1) default).c ≥ (df.getD j default).c
      · rw [if_pos hc]
        exact (max_eq_left (sub_nonneg.mpr hc)).symm
      · rw [if_neg hc]
        exact (max_eq_right (sub_nonpos.mpr (le_of_lt (not_le.mp hc)))).symm
    · have hg := getD_range'_map
        (fun i => if (df.getD i default).c < (df.getD (i - 1) default).c
          then |(df.getD i default).c - (df.getD (i - 1) default).c| else 0)
        1 (df.length - 1) j (by omega)
      have hg' : (rsi_losses df).getD j 0 =
          if (df.getD (1 + j) default).c < (df.getD (1 + j - 1) default).c
          then |(df.getD (1 + j) default).c - (df.getD (1 + j - 1) default).c| else 0 := hg
      rw [hg', show (1 : ℕ) + j = j + 1 from Nat.add_comm 1 j]
      simp only [Nat.add_sub_cancel]
      by_cases hc : (df.getD (j + 1) default).c < (df.getD j default).c
      · rw [if_pos hc, abs_of_neg (sub_neg.mpr hc), neg_sub]
        exact (max_eq_left (sub_nonneg.mpr (le_of_lt hc))).symm
      · rw [if_neg hc]
        exact (max_eq_right (sub_nonpos.mpr (not_lt.mp hc))).symm
  · intro i hi
    have hg := getD_range_map (fun i => raw.getD i 0) (negSlice df raw.length).length i
      (by omega)
    have hg' : ((List.range (negSlice df raw.length).length).map
        (fun i => raw.getD i 0)).getD i 0 = raw.getD i 0 := hg
    exact hg'.trans (hrawget i hi)

/-- Witness for C5 on a concrete 3-bar series with closes 2, 1, 3 and lag 1. -/
theorem rsi_wilder_fixed_constants_witness :
    ((1 : ℕ) ≤ 1 ∧ 1 + 1 < ([⟨0,1,1,1,2,1⟩, ⟨1,1,1,1,1,1⟩, ⟨2,1,1,1,3,1⟩] : List Bar).length ∧
      (∀ i, i < ([⟨0,1,1,1,2,1⟩, ⟨1,1,1,1,1,1⟩, ⟨2,1,1,1,3,1⟩] : List Bar).length - 1 →
        ((avg_loss [⟨0,1,1,1,2,1⟩, ⟨1,1,1,1,1,1⟩, ⟨2,1,1,1,3,1⟩] 1).toOption.getD []).getD i 0 ≠ 0)) ∧
    (∃ G L out,
      avg_gain [⟨0,1,1,1,2,1⟩, ⟨1,1,1,1,1,1⟩, ⟨2,1,1,1,3,1⟩] 1 = .ok G ∧
      avg_loss [⟨0,1,1,1,2,1⟩, ⟨1,1,1,1,1,1⟩, ⟨2,1,1,1,3,1⟩] 1 = .ok L ∧
      rsi [⟨0,1,1,1,2,1⟩, ⟨1,1,1,1,1,1⟩, ⟨2,1,1,1,3,1⟩] 1 = .ok out ∧
      G.length = ([⟨0,1,1,1,2,1⟩, ⟨1,1,1,1,1,1⟩, ⟨2,1,1,1,3,1⟩] : List Bar).length - 1 ∧
      L.length = ([⟨0,1,1,1,2,1⟩, ⟨1,1,1,1,1,1⟩, ⟨2,1,1,1,3,1⟩] : List Bar).length - 1 ∧
      out.length = ([⟨0,1,1,1,2,1⟩, ⟨1,1,1,1,1,1⟩, ⟨2,1,1,1,3,1⟩] : List Bar).length - 1 ∧
      (∀ j, j + 1 < ([⟨0,1,1,1,2,1⟩, ⟨1,1,1,1,1,1⟩, ⟨2,1,1,1,3,1⟩] : List Bar).length →
        (rsi_gains [⟨0,1,1,1,2,1⟩, ⟨1,1,1,1,1,1⟩, ⟨2,1,1,1,3,1⟩]).getD j 0 =
          max ((([⟨0,1,1,1,2,1⟩, ⟨1,1,1,1,1,1⟩, ⟨2,1,1,1,3,1⟩] : List Bar).getD (j + 1) default).c -
            (([⟨0,1,1,1,2,1⟩, ⟨1,1,1,1,1,1⟩, ⟨2,1,1,1,3,1⟩] : List Bar).getD j default).c) 0 ∧
        (rsi_losses [⟨0,1,1,1,2,1⟩, ⟨1,1,1,1,1,1⟩, ⟨2,1,1,1,3,1⟩]).getD j 0 =
          max ((([⟨0,1,1,1,2,1⟩, ⟨1,1,1,1,1,1⟩, ⟨2,1,1,1,3,1⟩] : List Bar).getD j default).c -
            (([⟨0,1,1,1,2,1⟩, ⟨1,1,1,1,1,1⟩, ⟨2,1,1,1,3,1⟩] : List Bar).getD (j + 1) default).c) 0) ∧
      G.getD 0 0 = ((rsi_gains [⟨0,1,1,1,2,1⟩, ⟨1,1,1,1,1,1⟩, ⟨2,1,1,1,3,1⟩]).take 1).sum / ((1 : ℕ) : ℚ) ∧
      L.getD 0 0 = ((rsi_losses [⟨0,1,1,1,2,1⟩, ⟨1,1,1,1,1,1⟩, ⟨2,1,1,1,3,1⟩]).take 1).sum / ((1 : ℕ) : ℚ) ∧
      (∀ j, j + 1 < ([⟨0,1,1,1,2,1⟩, ⟨1,1,1,1,1,1⟩, ⟨2,1,1,1,3,1⟩] : List Bar).length - 1 →
        G.getD (j + 1) 0 = (G.getD j 0 * 13 +
          (rsi_gains [⟨0,1,1,1,2,1⟩, ⟨1,1,1,1,1,1⟩, ⟨2,1,1,1,3,1⟩]).getD (1 + j) 0) / 14 ∧
        L.getD (j + 1) 0 = (L.getD j 0 * 13 +
          (rsi_losses [⟨0,1,1,1,2,1⟩, ⟨1,1,1,1,1,1⟩, ⟨2,1,1,1,3,1⟩]).getD (1 + j) 0) / 14) ∧
      (∀ i, i < ([⟨0,1,1,1,2,1⟩, ⟨1,1,1,1,1,1⟩, ⟨2,1,1,1,3,1⟩] : List Bar).length - 1 →
        out.getD i 0 = round2 (100 - 100 / (1 + G.getD i 0 / L.getD i 0)))) :=
  ⟨⟨by decide, by decide, by
      intro i hi
      norm_num at hi
      interval_cases i <;>
        norm_num [avg_loss, Except.toOption, rsi_losses, List.range', List.getLastD]⟩,
    rsi_wilder_fixed_constants [⟨0,1,1,1,2,1⟩, ⟨1,1,1,1,1,1⟩, ⟨2,1,1,1,3,1⟩] 1
      (by decide) (by decide) (by
        intro i hi
        norm_num at hi
        interval_cases i <;>
          norm_num [avg_loss, Except.toOption, rsi_losses, List.range', List.getLastD])⟩

/-- C2: For `len(S) > L`, `moving_avg(S, key, L)` has length `len(S) - L`, element
`k` is the mean of the field over the window `S[k..k+L]` rounded to 2 decimals,
and the last element is the rounded mean over the last `L+1` elements of `S`. -/
theorem moving_avg_window_mean (df : List Bar) (key : Bar → ℚ) (L : ℕ)
    (h : L < df.length) :
    (moving_avg df key L).length = df.length - L ∧
    (∀ k, k < df.length - L →
      (moving_avg df key L).getD k 0 =
        round2 ((((df.drop k).take (L + 1)).map key).sum / ((L : ℚ) + 1))) ∧
    (moving_avg df key L).getLast? =
      some (round2 (((df.drop (df.length - (L + 1))).map key).sum / ((L : ℚ) + 1))) := by
  have helem : ∀ k, k < df.length - L →
      (moving_avg df key L).getD k 0 =
        round2 ((((df.drop k).take (L + 1)).map key).sum / ((L : ℚ) + 1)) := by
    intro k hk
    rw [moving_avg_getD df key L k hk]
    exact sma_window_eq_mean key _ L (window_length df k (L + 1) (by omega))
  refine ⟨moving_avg_length df key L, helem, ?_⟩
  have hlen : (moving_avg df key L).length = df.length - L := moving_avg_length df key L
  have hne : moving_avg df key L ≠ [] := by
    intro hnil
    rw [hnil] at hlen
    simp at hlen
    omega
  have hlast : (moving_avg df key L).getLast? =
      ((moving_avg df key L)[(df.length - L) - 1]?) := by
    rw [List.getLast?_eq_getElem?, hlen]
  have hidx : (df.length - L) - 1 < df.length - L := by omega
  have hgd : (moving_avg df key L).getD ((df.length - L) - 1) 0 =
      round2 ((((df.drop ((df.length - L) - 1)).take (L + 1)).map key).sum / ((L : ℚ) + 1)) :=
    helem _ hidx
  have hdropeq : (df.drop ((df.length - L) - 1)).take (L + 1) =
      df.drop (df.length - (L + 1)) := by
    have h1 : (df.length - L) - 1 = df.length - (L + 1) := by omega
    rw [h1]
    apply List.take_of_length_le
    simp only [List.length_drop]
    omega
  rw [hlast]
  have hsome : (moving_avg df key L)[(df.length - L) - 1]? =
      some ((moving_avg df key L).getD ((df.length - L) - 1) 0) := by
    rw [List.getD_eq_getElem?_getD]
    cases hx : (moving_avg df key L)[(df.length - L) - 1]? with
    | none =>
      rw [List.getElem?_eq_none_iff] at hx
      omega
    | some y => rfl
  rw [hsome, hgd, hdropeq]

/-- Witness for C2 on a concrete 3-bar series with lag 1. -/
theorem moving_avg_window_mean_witness :
    (1 < ([⟨0,1,1,1,1,1⟩, ⟨1,1,1,1,2,1⟩, ⟨2,1,1,1,3,1⟩] : List Bar).length) ∧
    ((moving_avg [⟨0,1,1,1,1,1⟩, ⟨1,1,1,1,2,1⟩, ⟨2,1,1,1,3,1⟩] Bar.c 1).length =
      ([⟨0,1,1,1,1,1⟩, ⟨1,1,1,1,2,1⟩, ⟨2,1,1,1,3,1⟩] : List Bar).length - 1 ∧
    (∀ k, k < ([⟨0,1,1,1,1,1⟩, ⟨1,1,1,1,2,1⟩, ⟨2,1,1,1,3,1⟩] : List Bar).length - 1 →
      (moving_avg [⟨0,1,1,1,1,1⟩, ⟨1,1,1,1,2,1⟩, ⟨2,1,1,1,3,1⟩] Bar.c 1).getD k 0 =
        round2 (((((
          [⟨0,1,1,1,1,1⟩, ⟨1,1,1,1,2,1⟩, ⟨2,1,1,1,3,1⟩] : List Bar).drop k).take (1 + 1)).map Bar.c).sum /
          ((1 : ℚ) + 1))) ∧
    (moving_avg [⟨0,1,1,1,1,1⟩, ⟨1,1,1,1,2,1⟩, ⟨2,1,1,1,3,1⟩] Bar.c 1).getLast? =
      some (round2 (((([⟨0,1,1,1,1,1⟩, ⟨1,1,1,1,2,1⟩, ⟨2,1,1,1,3,1⟩] : List Bar).drop
        (([⟨0,1,1,1,1,1⟩, ⟨1,1,1,1,2,1⟩, ⟨2,1,1,1,3,1⟩] : List Bar).length - (1 + 1))).map Bar.c).sum /
        ((1 : ℚ) + 1)))) :=
  ⟨by decide, moving_avg_window_mean [⟨0,1,1,1,1,1⟩, ⟨1,1,1,1,2,1⟩, ⟨2,1,1,1,3,1⟩] Bar.c 1 (by decide)⟩

/-- C1 counterexample: on a one-bar series with lag 1 (shorter than the
required `lag+1` window), `ema` raises an IndexError (indexing the empty seed
list) instead of returning an empty series. -/
theorem ema_insufficient_data_raises :
    (([⟨0,1,1,1,1,1⟩] : List Bar)).length ≤ 1 ∧
    ema [⟨0,1,1,1,1,1⟩] Bar.c 1 = .error .indexError :=
  ⟨by decide, rfl⟩

/-- C1 (amended): on insufficient data, `moving_avg`, `atr` (absent its
normalize division-by-zero case), `gaps`, `percent_change`, `new_high` and
`frequency` return an empty output and never raise, and in particular
`moving_avg(S, key, len(S)) = []`; but `ema` — and therefore `macd`, which
calls it — raises an IndexError when `len(S) <= lag`, and `rsi` never returns
an empty series at all. -/
theorem insufficient_data_policy_amended (df : List Bar) (key : Bar → ℚ)
    (keys : List (Bar → Bool)) (lag slow fast signal : ℕ) (normalize : Bool) :
    (df.length ≤ lag → moving_avg df key lag = []) ∧
    moving_avg df key df.length = [] ∧
    (df.length ≤ lag + 1 →
      (normalize = true → ∀ i, 1 ≤ i → i < df.length → (df.getD i default).c ≠ 0) →
      atr df lag normalize = .ok []) ∧
    (df.length ≤ 1 → gaps df = []) ∧
    (df.length ≤ lag → percent_change df lag = .ok []) ∧
    (df.length ≤ 30 → frequency df keys lag = []) ∧
    (df.length = 0 → new_high df = []) ∧
    (df.length ≤ lag → ema df key lag = .error .indexError) ∧
    (df.length ≤ slow → macd df slow fast signal = .error .indexError) ∧
    (∀ l, rsi df lag = .ok l → l ≠ []) := by
  refine ⟨?_, ?_, ?_, ?_, ?_, ?_, ?_, ema_insufficient df key lag, ?_,
    rsi_ok_ne_nil df lag⟩
  · intro h
    apply List.length_eq_zero.mp
    rw [moving_avg_length]
    omega
  · apply List.length_eq_zero.mp
    rw [moving_avg_length]
    omega
  · intro h hnz
    have htrok := true_ranges_ok df normalize hnz
    have hlen0 : ((List.range (df.length - 1)).map
        (fun i => max (max ((df.getD (i + 1) default).h - (df.getD (i + 1) default).l)
            ((df.getD (i + 1) default).h - (df.getD i default).c))
          ((df.getD (i + 1) default).l - (df.getD i default).c) /
          (if normalize then (df.getD (i + 1) default).c else 1))).length - lag = 0 := by
      simp only [List.length_map, List.length_range]
      omega
    simp only [atr, htrok, except_bind_ok, hlen0]
    rfl
  · intro h
    unfold gaps
    rw [show df.length - 1 = 0 by omega]
    rfl
  · intro h
    unfold percent_change
    rw [show df.length - lag = 0 by omega]
    rfl
  · intro h
    unfold frequency
    rw [show df.length - 30 = 0 by omega]
    rfl
  · intro h
    have hdf : df = [] := List.length_eq_zero.mp h
    rw [hdf]
    rfl
  · intro h
    simp only [macd, macd_line_of, ema_insufficient df Bar.c slow h, except_bind_error]

/-- Witness for the amended C1 at a concrete instantiation. -/
theorem insufficient_data_policy_amended_witness :
    (([⟨0,1,1,1,1,1⟩] : List Bar).length ≤ 1 → moving_avg [⟨0,1,1,1,1,1⟩] Bar.c 1 = []) ∧
    moving_avg [⟨0,1,1,1,1,1⟩] Bar.c ([⟨0,1,1,1,1,1⟩] : List Bar).length = [] ∧
    (([⟨0,1,1,1,1,1⟩] : List Bar).length ≤ 1 + 1 →
      (false = true → ∀ i, 1 ≤ i → i < ([⟨0,1,1,1,1,1⟩] : List Bar).length →
        (([⟨0,1,1,1,1,1⟩] : List Bar).getD i default).c ≠ 0) →
      atr [⟨0,1,1,1,1,1⟩] 1 false = .ok []) ∧
    (([⟨0,1,1,1,1,1⟩] : List Bar).length ≤ 1 → gaps [⟨0,1,1,1,1,1⟩] = []) ∧
    (([⟨0,1,1,1,1,1⟩] : List Bar).length ≤ 1 → percent_change [⟨0,1,1,1,1,1⟩] 1 = .ok []) ∧
    (([⟨0,1,1,1,1,1⟩] : List Bar).length ≤ 30 →
      frequency ([⟨0,1,1,1,1,1⟩] : List Bar) ([fun _ => true] : List (Bar → Bool)) 1 = []) ∧
    (([⟨0,1,1,1,1,1⟩] : List Bar).length = 0 → new_high [⟨0,1,1,1,1,1⟩] = []) ∧
    (([⟨0,1,1,1,1,1⟩] : List Bar).length ≤ 1 → ema [⟨0,1,1,1,1,1⟩] Bar.c 1 = .error .indexError) ∧
    (([⟨0,1,1,1,1,1⟩] : List Bar).length ≤ 2 → macd [⟨0,1,1,1,1,1⟩] 2 3 1 = .error .indexError) ∧
    (∀ l, rsi [⟨0,1,1,1,1,1⟩] 1 = .ok l → l ≠ []) :=
  insufficient_data_policy_amended [⟨0,1,1,1,1,1⟩] Bar.c
    ([fun _ => true] : List (Bar → Bool)) 1 2 3 1 false

end Tayframe
